import Mathlib

/-!
Verification model of the task-progress tracking and reconciliation engine of
the `vscodep` extension (the `// ===== TASK MANAGEMENT =====` section of the
extension entry file).

The TypeScript source is embedded shallowly:

* document text is a `List Char`; `String.prototype.split('\n')` is `splitLines`;
* the regular expressions `/^\s*-\s*\[([x ])\]\s*(.+)$/` (task parser),
  `/^\s*-\s*\[([x ])\]/` (marker test in `markTaskCompleted`) and
  `/^\s*-\s*\[\s\]/ → '- [x]'` (the replacement in `markTaskCompleted`) are
  modelled character by character, following JavaScript regex semantics
  (greedy `\s*` with backtracking, `.` not matching line terminators, `$`
  anchoring at end of input);
* the module-level mutable globals `currentTaskState` and `taskProgress`
  become an explicit `SysState` record threaded through the operations;
* the editor environment (located 03-tasks file on disk, text of the open
  tasks document) becomes an explicit `Env` record; `applyEdit` on the open
  document is a pure update of `Env.buffer` (a `TextDocument` is modelled as
  its list of lines, matching the line-based edit the code performs);
* JavaScript numeric quirks are preserved: `currentTaskState?.taskIndex || null`
  maps index `0` to `null`, and `Math.round` is `⌊q + 1/2⌋` over `ℚ`.
-/

namespace Vscodep

/-- JavaScript `\s` character class (WhiteSpace ∪ LineTerminator). -/
def isJsSpace (c : Char) : Bool :=
  c == ' ' || c == '\t' || c == '\n' || c == '\r' || c == '\x0b' || c == '\x0c' ||
  c == '\u00A0' || c == '\u1680' || ('\u2000' ≤ c && c ≤ '\u200A') ||
  c == '\u2028' || c == '\u2029' || c == '\u202F' || c == '\u205F' ||
  c == '\u3000' || c == '\uFEFF'

/-- JavaScript line terminators: the characters `.` does not match. -/
def isLineTerminator (c : Char) : Bool :=
  c == '\n' || c == '\r' || c == '\u2028' || c == '\u2029'

/-- JavaScript `String.prototype.trim`: strip `\s` characters from both ends. -/
def jsTrim (l : List Char) : List Char :=
  ((l.dropWhile isJsSpace).reverse.dropWhile isJsSpace).reverse

/-- JavaScript `String.prototype.split('\n')`; `"".split('\n') = [""]`. -/
def splitLines : List Char → List (List Char)
  | [] => [[]]
  | c :: rest =>
    if c = '\n' then [] :: splitLines rest
    else
      match splitLines rest with
      | l :: ls => (c :: l) :: ls
      | [] => [[c]]

/-- Tail `\s*(.+)$` of the parser regex, applied after the closing bracket.
With greedy backtracking this succeeds iff some split `r = w ++ s` exists with
`w` all-whitespace and `s` nonempty containing no line terminator; the engine
returns the `s` of the longest such `w`.  When the remainder after the maximal
whitespace prefix is nonempty, that remainder is the capture; when `r` is all
whitespace, backtracking by one character captures the last character alone. -/
def matchTail (r : List Char) : Option (List Char) :=
  let s := r.dropWhile isJsSpace
  if s.isEmpty then
    match r.getLast? with
    | some c => if isLineTerminator c then none else some [c]
    | none => none
  else
    if s.all (fun c => !isLineTerminator c) then some s else none

/-- The task parser regex `/^\s*-\s*\[([x ])\]\s*(.+)$/` from
`parseTasksFromFile`: returns the completion flag (group 1) and the raw
description capture (group 2) when the line matches. -/
def matchTaskLine (l : List Char) : Option (Char × List Char) :=
  match l.dropWhile isJsSpace with
  | '-' :: rest =>
    match rest.dropWhile isJsSpace with
    | '[' :: c :: ']' :: r =>
      if c == 'x' || c == ' ' then
        match matchTail r with
        | some s => some (c, s)
        | none => none
      else none
    | _ => none
  | _ => none

/-- The marker regex `/^\s*-\s*\[([x ])\]/` used by `markTaskCompleted` to
count checklist lines.  Unlike the parser regex it demands nothing after the
closing bracket. -/
def taskMarkerMatch (l : List Char) : Bool :=
  match l.dropWhile isJsSpace with
  | '-' :: rest =>
    match rest.dropWhile isJsSpace with
    | '[' :: c :: ']' :: _ => c == 'x' || c == ' '
    | _ => false
  | _ => false

/-- `lines[i].replace(/^\s*-\s*\[\s\]/, '- [x]')` from `markTaskCompleted`:
if the line starts (after optional whitespace) with a dash, optional
whitespace and a bracketed whitespace character, the whole matched prefix is
replaced by the literal `- [x]`; otherwise the line is returned unchanged. -/
def replaceTaskMarker (l : List Char) : List Char :=
  match l.dropWhile isJsSpace with
  | '-' :: rest =>
    match rest.dropWhile isJsSpace with
    | '[' :: c :: ']' :: r =>
      if isJsSpace c then '-' :: ' ' :: '[' :: 'x' :: ']' :: r else l
    | _ => l
  | _ => l

/-- `interface TaskItem` — one checklist entry. -/
structure TaskItem where
  index : Nat
  text : List Char
  completed : Bool
  line : Nat
deriving Repr, DecidableEq

/-- The `status` field of `interface TaskState`. -/
inductive TaskStatus where
  | implementing
  | completed
  | pending
deriving Repr, DecidableEq

/-- `interface TaskState` — the in-memory active-task state
(`currentTaskState` holds an `Option TaskState`). -/
structure TaskState where
  feature : String
  taskIndex : Nat
  status : TaskStatus
deriving Repr, DecidableEq

/-- `interface TaskProgress` — the progress snapshot held in the global
`taskProgress`. -/
structure TaskProgress where
  totalTasks : Nat
  completedTasks : Nat
  currentTask : Option Nat
deriving Repr, DecidableEq

/-- The two module-level mutable globals of the task engine. -/
structure SysState where
  currentTaskState : Option TaskState
  taskProgress : TaskProgress
deriving Repr, DecidableEq

/-- The editor environment the task engine reads and writes.
`disk f` is the content of feature `f`'s located `03-tasks` file
(`findSpecFiles(f).find(file => file.includes('03-tasks'))` plus
`workspace.fs.readFile`), `none` when no such file is located.
`buffer f` is the text of the open `TextDocument` for that file as a list of
lines (`vscode.workspace.textDocuments.find(...)`), `none` when the document
is not open.  `applyEdit` only changes the buffer, never the disk content. -/
structure Env where
  disk : String → Option (List Char)
  buffer : String → Option (List (List Char))

/-- The `lines.forEach` body of `parseTasksFromFile`: `lineNo` is the current
document line, `count` the number of items pushed so far (`tasks.length`). -/
def parseTasksAux : List (List Char) → Nat → Nat → List TaskItem
  | [], _, _ => []
  | l :: rest, lineNo, count =>
    match matchTaskLine l with
    | some fs =>
      { index := count, text := jsTrim fs.2, completed := fs.1 == 'x', line := lineNo }
        :: parseTasksAux rest (lineNo + 1) (count + 1)
    | none => parseTasksAux rest (lineNo + 1) count

/-- Pure core of `parseTasksFromFile`: split the document on `'\n'` and
collect the checklist lines. -/
def parseTasks (content : List Char) : List TaskItem :=
  parseTasksAux (splitLines content) 0 0

/-- The checklist lines of a line list together with their (absolute) line
numbers and captures, starting at line number `n`.  Reference formulation
used to characterise `parseTasksAux`. -/
def matchedLinesFrom (n : Nat) : List (List Char) → List (Nat × Char × List Char)
  | [] => []
  | l :: rest =>
    match matchTaskLine l with
    | some fs => (n, fs.1, fs.2) :: matchedLinesFrom (n + 1) rest
    | none => matchedLinesFrom (n + 1) rest

/-- Assign sequential indices starting at `k` to matched lines, building the
`TaskItem`s the spec describes. -/
def withIndices (k : Nat) : List (Nat × Char × List Char) → List TaskItem
  | [] => []
  | q :: rest =>
    { index := k, text := jsTrim q.2.2, completed := q.2.1 == 'x', line := q.1 }
      :: withIndices (k + 1) rest

/-- Modelled from the spec's words (§4.1): one `TaskItem` per checklist-matching
line, in document order, indices assigned sequentially from 0 over matching
lines only, text trimmed, completed iff the flag is `x`, `line` the document
line number.  Reference definition compared against `parseTasks`. -/
def specParse (content : List Char) : List TaskItem :=
  withIndices 0 (matchedLinesFrom 0 (splitLines content))

/-- `updateTaskProgress(feature)`: locate the tasks file, re-parse it,
auto-clear `currentTaskState` when the item at its `taskIndex` is completed in
the file, and rebuild the global `taskProgress`.  When no tasks file is
located the whole body is skipped.  The snapshot's `currentTask` field models
`currentTaskState?.taskIndex || null`, so a `taskIndex` of `0` collapses to
`none`.  The function performs no writes, which its type makes explicit. -/
def updateTaskProgress (env : Env) (feature : String) (s : SysState) : SysState :=
  match env.disk feature with
  | none => s
  | some content =>
    let tasks := parseTasks content
    let completedCount := (tasks.filter (fun t => t.completed)).length
    let cleared : Option TaskState :=
      match s.currentTaskState with
      | some st =>
        if ((tasks.get? st.taskIndex).map TaskItem.completed).getD false then none
        else some st
      | none => none
    { currentTaskState := cleared,
      taskProgress :=
        { totalTasks := tasks.length,
          completedTasks := completedCount,
          currentTask :=
            match cleared with
            | some st => if st.taskIndex = 0 then none else some st.taskIndex
            | none => none } }

/-- `startTaskImplementation(feature, taskIndex)`: refuse when the tasks file
is located and `tasks[taskIndex] && tasks[taskIndex].completed`; otherwise set
`currentTaskState` and run `updateTaskProgress`. -/
def startTaskImplementation (env : Env) (feature : String) (taskIndex : Nat)
    (s : SysState) : SysState :=
  let refuse :=
    match env.disk feature with
    | some content =>
      (((parseTasks content).get? taskIndex).map TaskItem.completed).getD false
    | none => false
  if refuse then s
  else
    updateTaskProgress env feature
      { s with
        currentTaskState :=
          some { feature := feature, taskIndex := taskIndex, status := .implementing } }

/-- The `for` loop of `markTaskCompleted`: walk the document lines counting
marker-matching lines; at the `taskIndex`-th one, replace that line and stop. -/
def markLines : List (List Char) → Nat → List (List Char)
  | [], _ => []
  | l :: rest, k =>
    if taskMarkerMatch l then
      match k with
      | 0 => replaceTaskMarker l :: rest
      | j + 1 => l :: markLines rest j
    else
      l :: markLines rest k

/-- `markTaskCompleted(feature, taskIndex)`: no located tasks file → return;
document not open → no edit; otherwise apply the line edit to the open
document's buffer.  Disk content is never touched (the edit is unsaved). -/
def markTaskCompleted (env : Env) (feature : String) (taskIndex : Nat) : Env :=
  match env.disk feature with
  | none => env
  | some _ =>
    match env.buffer feature with
    | none => env
    | some bl =>
      { env with
        buffer := fun g => if g = feature then some (markLines bl taskIndex) else env.buffer g }

/-- `completeTaskImplementation()`: return immediately when
`currentTaskState` is null; otherwise mark the task completed in the open
document, clear `currentTaskState` unconditionally, and recompute progress
(from disk, which the unsaved edit did not change). -/
def completeTaskImplementation (env : Env) (s : SysState) : Env × SysState :=
  match s.currentTaskState with
  | none => (env, s)
  | some st =>
    let env' := markTaskCompleted env st.feature st.taskIndex
    (env', updateTaskProgress env' st.feature { s with currentTaskState := none })

/-- JavaScript `Math.round` on a rational: round half toward positive
infinity. -/
def jsRound (q : ℚ) : ℤ := ⌊q + 1 / 2⌋

/-- `Math.round((completedTasks / totalTasks) * 100)` from `updateStatusBar`. -/
def progressPercent (p : TaskProgress) : ℤ :=
  jsRound ((p.completedTasks : ℚ) / (p.totalTasks : ℚ) * 100)

/-- What `updateStatusBar` renders: the status-bar text, the tooltip, and
whether the animated "implementing" indicator is shown. -/
structure Presented where
  text : String
  tooltip : String
  isActive : Bool
deriving Repr, DecidableEq

/-- `updateStatusBar()` as a pure function of the two globals it reads: the
`taskProgress` snapshot and `currentTaskState`.  The tooltip's
`${currentTask! + 1}` is JavaScript arithmetic where `null + 1 = 1`, hence
`getD 0`. -/
def present (p : TaskProgress) (st : Option TaskState) : Presented :=
  if p.totalTasks = 0 then
    { text := "$(checklist) Code:P Ready",
      tooltip := "Code:P Extension Status",
      isActive := false }
  else
    let isImplementing := st.isSome && decide (p.completedTasks < p.totalTasks)
    { text := "$(checklist) " ++ toString p.completedTasks ++ "/" ++
        toString p.totalTasks ++ " (" ++ toString (progressPercent p) ++ "%)" ++
        (if isImplementing then " $(sync~spin)" else ""),
      tooltip :=
        if isImplementing then
          "Implementing task " ++ toString (p.currentTask.getD 0 + 1) ++ " of " ++
            toString p.totalTasks ++ "..."
        else
          toString p.completedTasks ++ " of " ++ toString p.totalTasks ++
            " tasks completed",
      isActive := isImplementing }

/-- Marker-matching lines of a buffer with their line numbers, starting at
line `j`: the lines `markTaskCompleted`'s loop counts. -/
def markerLinesFrom (j : Nat) : List (List Char) → List (Nat × List Char)
  | [] => []
  | l :: rest =>
    if taskMarkerMatch l then (j, l) :: markerLinesFrom (j + 1) rest
    else markerLinesFrom (j + 1) rest

/-! Concrete fixtures used to evaluate the model at specific inputs. -/

/-- A workspace with no located tasks document and no open document. -/
def envMissing : Env := ⟨fun _ => none, fun _ => none⟩

/-- `"- [ ] alpha"` — a single incomplete task. -/
def docOneIncomplete : List Char := "- [ ] alpha".toList

/-- `"- [x] alpha"` — a single completed task. -/
def docOneComplete : List Char := "- [x] alpha".toList

/-- `"  - [ ] foo"` — one incomplete task with two leading spaces. -/
def docIndent : List Char := "  - [ ] foo".toList

/-- Workspace where feature `f`'s tasks file holds one incomplete task. -/
def envF : Env := ⟨fun g => if g = "f" then some docOneIncomplete else none, fun _ => none⟩

/-- Workspace where feature `g`'s tasks file holds one completed task. -/
def envG : Env := ⟨fun g => if g = "g" then some docOneComplete else none, fun _ => none⟩

/-- Workspace where feature `f`'s tasks file holds the indented task and the
document is open. -/
def envIndent : Env :=
  ⟨fun g => if g = "f" then some docIndent else none,
   fun g => if g = "f" then some [docIndent] else none⟩

/-- Open two-task buffer `["- [ ] alpha", "- [ ] beta"]`. -/
def bufTwo : List (List Char) := ["- [ ] alpha".toList, "- [ ] beta".toList]

/-- Workspace where feature `f` has two incomplete tasks and the document is
open. -/
def envTwo : Env :=
  ⟨fun g => if g = "f" then some ("- [ ] alpha\n- [ ] beta".toList) else none,
   fun g => if g = "f" then some bufTwo else none⟩

/-- Active state `Implementing("f", 0)`. -/
def stF0 : TaskState := ⟨"f", 0, .implementing⟩

/-- Active state `Implementing("f", 1)`. -/
def stF1 : TaskState := ⟨"f", 1, .implementing⟩

/-- Active state `Implementing("h", 3)`. -/
def stH3 : TaskState := ⟨"h", 3, .implementing⟩

/-- Initial progress snapshot (`{ totalTasks: 0, completedTasks: 0,
currentTask: null }`). -/
def progress0 : TaskProgress := ⟨0, 0, none⟩

/-- System state with active task `Implementing("f", 0)`. -/
def sActiveF0 : SysState := ⟨some stF0, progress0⟩

/-- System state with active task `Implementing("f", 1)`. -/
def sActiveF1 : SysState := ⟨some stF1, progress0⟩

/-- System state with active task `Implementing("h", 3)`. -/
def sActiveH3 : SysState := ⟨some stH3, progress0⟩

/-- Idle system state (no active task). -/
def sIdle : SysState := ⟨none, progress0⟩

/-- The spec's §8 scenario document. -/
def scenarioDoc : List Char :=
  "- [ ] Write parser\n- [x] Design schema\n- [ ] Add tests\n".toList

end Vscodep

namespace Vscodep

/-! ### Characterisation of the task parser -/

lemma matchTaskLine_flag {l : List Char} {fs : Char × List Char}
    (h : matchTaskLine l = some fs) : fs.1 = 'x' ∨ fs.1 = ' ' := by
  unfold matchTaskLine at h
  split at h
  case _ rest heq =>
    split at h
    case _ c r heq2 =>
      split at h
      case isTrue hc =>
        split at h
        case _ s hs =>
          cases h
          rcases Bool.or_eq_true_iff.mp hc with h1 | h1
          · exact Or.inl (by simpa using h1)
          · exact Or.inr (by simpa using h1)
        case _ hs => exact absurd h (by simp)
      case isFalse hc => exact absurd h (by simp)
    all_goals exact absurd h (by simp)
  case _ => exact absurd h (by simp)

lemma parseTasksAux_eq (ls : List (List Char)) : ∀ n k,
    parseTasksAux ls n k = withIndices k (matchedLinesFrom n ls) := by
  induction ls with
  | nil => intro n k; rfl
  | cons l rest ih =>
    intro n k
    cases h : matchTaskLine l with
    | none => simp [parseTasksAux, matchedLinesFrom, h, ih]
    | some fs => simp [parseTasksAux, matchedLinesFrom, withIndices, h, ih]

lemma withIndices_length (m : List (Nat × Char × List Char)) : ∀ k,
    (withIndices k m).length = m.length := by
  induction m with
  | nil => intro k; rfl
  | cons q rest ih => intro k; simp [withIndices, ih]

lemma matchedLinesFrom_length (ls : List (List Char)) : ∀ n,
    (matchedLinesFrom n ls).length
      = (ls.filter (fun l => (matchTaskLine l).isSome)).length := by
  induction ls with
  | nil => intro n; rfl
  | cons l rest ih =>
    intro n
    cases h : matchTaskLine l with
    | none => simp [matchedLinesFrom, h, ih]
    | some fs => simp [matchedLinesFrom, h, ih]

lemma withIndices_get? (m : List (Nat × Char × List Char)) : ∀ k j,
    (withIndices k m).get? j
      = (m.get? j).map
          (fun q => ⟨k + j, jsTrim q.2.2, q.2.1 == 'x', q.1⟩) := by
  induction m with
  | nil => intro k j; simp [withIndices]
  | cons q rest ih =>
    intro k j
    cases j with
    | zero => simp [withIndices]
    | succ j =>
      have hadd : k + 1 + j = k + (j + 1) := by omega
      show (withIndices (k + 1) rest).get? j = _
      rw [List.get?_cons_succ, ih (k + 1) j, hadd]

lemma matchedLinesFrom_get?_spec (ls : List (List Char)) : ∀ n j q,
    (matchedLinesFrom n ls).get? j = some q →
    ∃ d l, q.1 = n + d ∧ ls.get? d = some l
      ∧ matchTaskLine l = some (q.2.1, q.2.2) := by
  induction ls with
  | nil => intro n j q h; simp [matchedLinesFrom] at h
  | cons l rest ih =>
    intro n j q h
    cases hm : matchTaskLine l with
    | some fs =>
      rw [show matchedLinesFrom n (l :: rest)
            = (n, fs.1, fs.2) :: matchedLinesFrom (n + 1) rest by
          simp [matchedLinesFrom, hm]] at h
      cases j with
      | zero =>
        cases h
        exact ⟨0, l, by simp, by simp, by simpa using hm⟩
      | succ j =>
        obtain ⟨d, l', hq, hget, hmatch⟩ := ih (n + 1) j q h
        exact ⟨d + 1, l', by omega, by simpa using hget, hmatch⟩
    | none =>
      rw [show matchedLinesFrom n (l :: rest) = matchedLinesFrom (n + 1) rest by
          simp [matchedLinesFrom, hm]] at h
      obtain ⟨d, l', hq, hget, hmatch⟩ := ih (n + 1) j q h
      exact ⟨d + 1, l', by omega, by simpa using hget, hmatch⟩

lemma matchedLinesFrom_mono (ls : List (List Char)) : ∀ n j1 j2 q1 q2, j1 < j2 →
    (matchedLinesFrom n ls).get? j1 = some q1 →
    (matchedLinesFrom n ls).get? j2 = some q2 → q1.1 < q2.1 := by
  induction ls with
  | nil => intro n j1 j2 q1 q2 _ h1 _; simp [matchedLinesFrom] at h1
  | cons l rest ih =>
    intro n j1 j2 q1 q2 hlt h1 h2
    cases hm : matchTaskLine l with
    | some fs =>
      rw [show matchedLinesFrom n (l :: rest)
            = (n, fs.1, fs.2) :: matchedLinesFrom (n + 1) rest by
          simp [matchedLinesFrom, hm]] at h1 h2
      cases j1 with
      | zero =>
        cases h1
        obtain ⟨j2', rfl⟩ : ∃ j2', j2 = j2' + 1 := ⟨j2 - 1, by omega⟩
        obtain ⟨d, l', hq, _, _⟩ := matchedLinesFrom_get?_spec rest (n + 1) j2' q2 h2
        simp only [hq]
        omega
      | succ j1' =>
        obtain ⟨j2', rfl⟩ : ∃ j2', j2 = j2' + 1 := ⟨j2 - 1, by omega⟩
        exact ih (n + 1) j1' j2' q1 q2 (by omega) h1 h2
    | none =>
      rw [show matchedLinesFrom n (l :: rest) = matchedLinesFrom (n + 1) rest by
          simp [matchedLinesFrom, hm]] at h1 h2
      exact ih (n + 1) j1 j2 q1 q2 hlt h1 h2

lemma matchedLinesFrom_eq_nil (ls : List (List Char)) : ∀ n,
    (∀ l ∈ ls, matchTaskLine l = none) → matchedLinesFrom n ls = [] := by
  induction ls with
  | nil => intro n _; rfl
  | cons l rest ih =>
    intro n h
    have hl : matchTaskLine l = none := h l (by simp)
    simp [matchedLinesFrom, hl, ih (n + 1) (fun x hx => h x (by simp [hx]))]

end Vscodep

namespace Vscodep

/-! ### Characterisation of the completion-marker rewrite -/

lemma markerLinesFrom_shift (ls : List (List Char)) : ∀ j,
    markerLinesFrom j ls
      = (markerLinesFrom 0 ls).map (fun p => (j + p.1, p.2)) := by
  induction ls with
  | nil => intro j; rfl
  | cons l rest ih =>
    intro j
    cases hm : taskMarkerMatch l with
    | true =>
      rw [show markerLinesFrom j (l :: rest) = (j, l) :: markerLinesFrom (j + 1) rest by
            simp [markerLinesFrom, hm],
          show markerLinesFrom 0 (l :: rest) = (0, l) :: markerLinesFrom 1 rest by
            simp [markerLinesFrom, hm],
          ih (j + 1), ih 1]
      simp [List.map_map, Function.comp_def, Nat.add_assoc]
    | false =>
      rw [show markerLinesFrom j (l :: rest) = markerLinesFrom (j + 1) rest by
            simp [markerLinesFrom, hm],
          show markerLinesFrom 0 (l :: rest) = markerLinesFrom 1 rest by
            simp [markerLinesFrom, hm],
          ih (j + 1), ih 1]
      simp [List.map_map, Function.comp_def, Nat.add_assoc]

lemma markerLinesFrom_length (ls : List (List Char)) : ∀ j,
    (markerLinesFrom j ls).length = (ls.filter taskMarkerMatch).length := by
  induction ls with
  | nil => intro j; rfl
  | cons l rest ih =>
    intro j
    cases hm : taskMarkerMatch l with
    | true => simp [markerLinesFrom, hm, ih]
    | false => simp [markerLinesFrom, hm, ih]

lemma markerLinesFrom_get?_spec (ls : List (List Char)) : ∀ n k p,
    (markerLinesFrom n ls).get? k = some p →
    ∃ d, p.1 = n + d ∧ ls.get? d = some p.2 ∧ taskMarkerMatch p.2 = true := by
  induction ls with
  | nil => intro n k p h; simp [markerLinesFrom] at h
  | cons l rest ih =>
    intro n k p h
    cases hm : taskMarkerMatch l with
    | true =>
      rw [show markerLinesFrom n (l :: rest) = (n, l) :: markerLinesFrom (n + 1) rest by
            simp [markerLinesFrom, hm]] at h
      cases k with
      | zero =>
        cases h
        exact ⟨0, by simp, by simp, hm⟩
      | succ k =>
        obtain ⟨d, hp, hget, hmatch⟩ := ih (n + 1) k p h
        exact ⟨d + 1, by omega, by simpa using hget, hmatch⟩
    | false =>
      rw [show markerLinesFrom n (l :: rest) = markerLinesFrom (n + 1) rest by
            simp [markerLinesFrom, hm]] at h
      obtain ⟨d, hp, hget, hmatch⟩ := ih (n + 1) k p h
      exact ⟨d + 1, by omega, by simpa using hget, hmatch⟩

lemma markLines_eq (bl : List (List Char)) : ∀ k,
    markLines bl k
      = ((markerLinesFrom 0 bl).get? k).elim bl
          (fun p => bl.set p.1 (replaceTaskMarker p.2)) := by
  induction bl with
  | nil => intro k; rfl
  | cons l rest ih =>
    intro k
    cases hm : taskMarkerMatch l with
    | true =>
      rw [show markerLinesFrom 0 (l :: rest) = (0, l) :: markerLinesFrom 1 rest by
            simp [markerLinesFrom, hm]]
      cases k with
      | zero => simp [markLines, hm, List.set]
      | succ k =>
        rw [show markLines (l :: rest) (k + 1) = l :: markLines rest k by
              simp [markLines, hm],
            ih k, List.get?_cons_succ, markerLinesFrom_shift rest 1]
        cases hg : (markerLinesFrom 0 rest).get? k with
        | none =>
          have hg2 : ((markerLinesFrom 0 rest).map (fun p => (1 + p.1, p.2))).get? k
              = none := by
            rw [List.get?_eq_getElem?] at hg ⊢
            simp [hg]
          rw [hg2]
          rfl
        | some p =>
          have hg2 : ((markerLinesFrom 0 rest).map (fun p => (1 + p.1, p.2))).get? k
              = some (1 + p.1, p.2) := by
            rw [List.get?_eq_getElem?] at hg ⊢
            simp [hg]
          rw [hg2]
          have hset : (l :: rest).set (1 + p.1) (replaceTaskMarker p.2)
              = l :: rest.set p.1 (replaceTaskMarker p.2) := by
            rw [show 1 + p.1 = p.1 + 1 by omega]
            rfl
          simp [hset]
    | false =>
      rw [show markerLinesFrom 0 (l :: rest) = markerLinesFrom 1 rest by
            simp [markerLinesFrom, hm],
          show markLines (l :: rest) k = l :: markLines rest k by
            simp [markLines, hm],
          ih k, markerLinesFrom_shift rest 1]
      cases hg : (markerLinesFrom 0 rest).get? k with
      | none =>
        have hg2 : ((markerLinesFrom 0 rest).map (fun p => (1 + p.1, p.2))).get? k
            = none := by
          rw [List.get?_eq_getElem?] at hg ⊢
          simp [hg]
        rw [hg2]
        rfl
      | some p =>
        have hg2 : ((markerLinesFrom 0 rest).map (fun p => (1 + p.1, p.2))).get? k
            = some (1 + p.1, p.2) := by
          rw [List.get?_eq_getElem?] at hg ⊢
          simp [hg]
        rw [hg2]
        have hset : (l :: rest).set (1 + p.1) (replaceTaskMarker p.2)
            = l :: rest.set p.1 (replaceTaskMarker p.2) := by
          rw [show 1 + p.1 = p.1 + 1 by omega]
          rfl
        simp [hset]

lemma markLines_of_out_of_range (bl : List (List Char)) (k : Nat)
    (h : (bl.filter taskMarkerMatch).length ≤ k) : markLines bl k = bl := by
  rw [markLines_eq]
  have hnone : (markerLinesFrom 0 bl).get? k = none := by
    rw [List.get?_eq_none]
    rw [markerLinesFrom_length]
    exact h
  rw [hnone]
  rfl

/-! ### Small facts about the tracker operations -/

lemma updateTaskProgress_of_no_doc {env : Env} {f : String} (s : SysState)
    (h : env.disk f = none) : updateTaskProgress env f s = s := by
  unfold updateTaskProgress
  rw [h]

lemma updateTaskProgress_currentTaskState_none {env : Env} {f : String}
    {s : SysState} (h : s.currentTaskState = none) :
    (updateTaskProgress env f s).currentTaskState = none := by
  unfold updateTaskProgress
  cases hd : env.disk f with
  | none => exact h
  | some content => simp [h]

lemma markTaskCompleted_of_no_doc {env : Env} {f : String} (i : Nat)
    (h : env.disk f = none) : markTaskCompleted env f i = env := by
  unfold markTaskCompleted
  rw [h]

lemma markTaskCompleted_of_not_open {env : Env} {f : String} (i : Nat)
    (h : env.buffer f = none) : markTaskCompleted env f i = env := by
  unfold markTaskCompleted
  cases hd : env.disk f with
  | none => rfl
  | some content => rw [h]

/-! ### The status-bar percentage -/

lemma progressPercent_eq_natDiv (p : TaskProgress) (ht : 0 < p.totalTasks) :
    progressPercent p
      = ((200 * p.completedTasks + p.totalTasks) / (2 * p.totalTasks) : ℕ) := by
  have ht' : (p.totalTasks : ℚ) ≠ 0 := Nat.cast_ne_zero.mpr ht.ne'
  unfold progressPercent jsRound
  have h1 : (p.completedTasks : ℚ) / (p.totalTasks : ℚ) * 100 + 1 / 2
      = ((200 * p.completedTasks + p.totalTasks : ℕ) : ℚ)
          / ((2 * p.totalTasks : ℕ) : ℚ) := by
    push_cast
    field_simp
    ring
  rw [h1, ← Int.natCast_floor_eq_floor (by positivity), Nat.floor_div_eq_div]

lemma progressPercent_comm (p : TaskProgress) :
    progressPercent p
      = jsRound ((100 * p.completedTasks : ℚ) / (p.totalTasks : ℚ)) := by
  unfold progressPercent
  ring_nf

end Vscodep

namespace Vscodep

/-! ### Claim theorems -/

/-- C5: for every document text, the parser returns exactly one `TaskItem` per
checklist-matching line, in document order, with indices exactly `0..n-1`
assigned sequentially over matching lines only, text trimmed, `completed` true
iff the flag is a lowercase `x` (any matching line's flag is `x` or space, so
an uppercase `X` never matches), and `line` the 0-based line number; input all
of whose lines fail the pattern (in particular empty input) yields `[]`, and
parsing is a total function. -/
theorem C5_parse_characterisation (content : List Char) :
    parseTasks content = specParse content
    ∧ (parseTasks content).length
        = ((splitLines content).filter (fun l => (matchTaskLine l).isSome)).length
    ∧ (∀ j t, (parseTasks content).get? j = some t →
        t.index = j
        ∧ ∃ l, (splitLines content).get? t.line = some l
          ∧ ∃ flag g2, matchTaskLine l = some (flag, g2)
            ∧ (flag = 'x' ∨ flag = ' ')
            ∧ t.text = jsTrim g2 ∧ t.completed = (flag == 'x'))
    ∧ (∀ j1 j2 t1 t2, j1 < j2 → (parseTasks content).get? j1 = some t1 →
        (parseTasks content).get? j2 = some t2 → t1.line < t2.line)
    ∧ ((∀ l ∈ splitLines content, matchTaskLine l = none) →
        parseTasks content = []) := by
  have hb : parseTasks content
      = withIndices 0 (matchedLinesFrom 0 (splitLines content)) :=
    parseTasksAux_eq (splitLines content) 0 0
  refine ⟨hb, ?_, ?_, ?_, ?_⟩
  · rw [hb, withIndices_length, matchedLinesFrom_length]
  · intro j t ht
    rw [hb, withIndices_get? _ 0 j] at ht
    cases hq : (matchedLinesFrom 0 (splitLines content)).get? j with
    | none => rw [hq] at ht; exact absurd ht (by simp)
    | some q =>
      rw [hq] at ht
      simp only [Option.map_some'] at ht
      injection ht with ht
      subst ht
      obtain ⟨d, l, hq1, hget, hmatch⟩ :=
        matchedLinesFrom_get?_spec (splitLines content) 0 j q hq
      refine ⟨by simp, l, ?_, q.2.1, q.2.2, hmatch,
        matchTaskLine_flag hmatch, rfl, rfl⟩
      show (splitLines content).get? q.1 = some l
      rw [hq1, Nat.zero_add]
      exact hget
  · intro j1 j2 t1 t2 hlt h1 h2
    rw [hb, withIndices_get? _ 0 j1] at h1
    rw [hb, withIndices_get? _ 0 j2] at h2
    cases hq1 : (matchedLinesFrom 0 (splitLines content)).get? j1 with
    | none => rw [hq1] at h1; exact absurd h1 (by simp)
    | some q1 =>
      cases hq2 : (matchedLinesFrom 0 (splitLines content)).get? j2 with
      | none => rw [hq2] at h2; exact absurd h2 (by simp)
      | some q2 =>
        rw [hq1] at h1
        rw [hq2] at h2
        simp only [Option.map_some'] at h1 h2
        injection h1 with h1
        injection h2 with h2
        subst h1
        subst h2
        exact matchedLinesFrom_mono (splitLines content) 0 j1 j2 q1 q2 hlt hq1 hq2
  · intro hall
    rw [hb, matchedLinesFrom_eq_nil (splitLines content) 0 hall]
    rfl

/-- Witness for C5: the spec's §8 scenario document.  The parser agrees with
the reference description, and the item at position 1 (`"Design schema"`,
completed, line 1) carries index 1. -/
theorem C5_parse_characterisation_witness :
    parseTasks scenarioDoc = specParse scenarioDoc
    ∧ (⟨1, "Design schema".toList, true, 1⟩ : TaskItem).index = 1 := by
  have h := C5_parse_characterisation scenarioDoc
  exact ⟨h.1, (h.2.2.1 1 ⟨1, "Design schema".toList, true, 1⟩ (by decide)).1⟩

/-- C1 (code bug): with the task list `"- [ ] alpha"` and active state
`Implementing("f", 0)`, recomputing progress keeps the active state (the item
is incomplete) but the produced snapshot's `currentTask` is `none`, not
`some 0`: `currentTaskState?.taskIndex || null` coerces the falsy index `0`
to `null`, contradicting the claim that the snapshot equals the active
state's `taskIndex` even when it is 0. -/
theorem C1_currentTask_zero_coerced_to_null :
    (updateTaskProgress envF "f" sActiveF0).currentTaskState = some stF0
    ∧ (updateTaskProgress envF "f" sActiveF0).taskProgress.currentTask = none := by
  decide

/-- C7: a start-task request for an index whose parsed item is already
completed is refused: the whole system state (active state and snapshot) is
returned unchanged, and no failure escapes (the model is a total function). -/
theorem C7_start_refused_when_completed (env : Env) (f : String) (i : Nat)
    (s : SysState) (content : List Char) (item : TaskItem)
    (hd : env.disk f = some content)
    (hi : (parseTasks content).get? i = some item)
    (hc : item.completed = true) :
    startTaskImplementation env f i s = s := by
  unfold startTaskImplementation
  rw [List.get?_eq_getElem?] at hi
  simp [hd, hi, hc]

/-- Witness for C7: starting task 0 of feature `g` (whose only item is
already completed) leaves a non-null active state for feature `h` exactly as
it was. -/
theorem C7_start_refused_when_completed_witness :
    startTaskImplementation envG "g" 0 sActiveH3 = sActiveH3 :=
  C7_start_refused_when_completed envG "g" 0 sActiveH3 docOneComplete
    ⟨0, "alpha".toList, true, 0⟩ (by decide) (by decide) (by decide)

/-- C10: invoking complete-active-task with a null active state returns
immediately: the environment (no document read or written) and the whole
system state, including the progress snapshot, are returned untouched. -/
theorem C10_complete_noop_when_idle (env : Env) (s : SysState)
    (h : s.currentTaskState = none) :
    completeTaskImplementation env s = (env, s) := by
  unfold completeTaskImplementation
  rw [h]

/-- Witness for C10 at a concrete idle state. -/
theorem C10_complete_noop_when_idle_witness :
    completeTaskImplementation envMissing sIdle = (envMissing, sIdle) :=
  C10_complete_noop_when_idle envMissing sIdle rfl

end Vscodep

namespace Vscodep

/-- C2 counterexample: with no located tasks document (the write cannot
happen), completing the active task still clears the in-memory state — the
claim that `ActiveTaskState` is left untouched on write failure is false:
`completeTaskImplementation` clears `currentTaskState` unconditionally after
`markTaskCompleted` returns, never checking whether a write occurred. -/
theorem C2_cleared_despite_missing_doc :
    (completeTaskImplementation envMissing sActiveF0).2.currentTaskState = none
    ∧ sActiveF0.currentTaskState ≠ none := by
  decide

/-- C2 amended: if the completion marker cannot be written (document not
located, not open, or active index out of range of the marker-matching
lines), then indeed no document is modified and no failure is thrown (the
model is total), but the in-memory `ActiveTaskState` is nevertheless cleared
to null: completion IS recorded in memory despite the failed write. -/
theorem C2_amended_write_failure_still_clears (env : Env) (s : SysState)
    (st : TaskState) (hst : s.currentTaskState = some st)
    (hfail : env.disk st.feature = none ∨ env.buffer st.feature = none ∨
      ∃ bl, env.buffer st.feature = some bl
        ∧ (bl.filter taskMarkerMatch).length ≤ st.taskIndex) :
    (completeTaskImplementation env s).2.currentTaskState = none
    ∧ (completeTaskImplementation env s).1.disk = env.disk
    ∧ ∀ g, (completeTaskImplementation env s).1.buffer g = env.buffer g := by
  have hpair : completeTaskImplementation env s
      = (markTaskCompleted env st.feature st.taskIndex,
         updateTaskProgress (markTaskCompleted env st.feature st.taskIndex)
           st.feature { s with currentTaskState := none }) := by
    unfold completeTaskImplementation
    rw [hst]
  have henv : markTaskCompleted env st.feature st.taskIndex = env := by
    rcases hfail with h | h | ⟨bl, hbl, hle⟩
    · exact markTaskCompleted_of_no_doc _ h
    · exact markTaskCompleted_of_not_open _ h
    · have hfun : (fun g => if g = st.feature then some bl else env.buffer g)
          = env.buffer := by
        funext g
        by_cases hg : g = st.feature
        · subst hg
          rw [if_pos rfl, hbl]
        · rw [if_neg hg]
      unfold markTaskCompleted
      cases hd : env.disk st.feature with
      | none => rfl
      | some d =>
        rw [hbl]
        simp only [markLines_of_out_of_range bl _ hle, hfun]
  rw [hpair, henv]
  exact ⟨updateTaskProgress_currentTaskState_none rfl, rfl, fun g => rfl⟩

/-- Witness for C2 amended: no tasks document at all, active task cleared,
environment untouched. -/
theorem C2_amended_write_failure_still_clears_witness :
    (completeTaskImplementation envMissing sActiveF0).2.currentTaskState = none
    ∧ (completeTaskImplementation envMissing sActiveF0).1.buffer "f"
        = envMissing.buffer "f" := by
  have h := C2_amended_write_failure_still_clears envMissing sActiveF0 stF0 rfl
    (Or.inl rfl)
  exact ⟨h.1, h.2.2 "f"⟩

/-- C3 counterexample: completing task 0 on the open document
`["  - [ ] foo"]` rewrites the line to `"- [x] foo"`, not `"  - [x] foo"`:
the replacement substitutes the literal `- [x]` for the whole matched prefix,
so the two leading spaces are lost — the claim that only the single character
inside the brackets changes (leading whitespace preserved) is false. -/
theorem C3_leading_whitespace_not_preserved :
    (completeTaskImplementation envIndent sActiveF0).1.buffer "f"
      = some ["- [x] foo".toList]
    ∧ "- [x] foo".toList ≠ "  - [x] foo".toList := by
  decide

/-- C3 amended: when complete-active-task runs with the tasks document
located and open, it clears `ActiveTaskState`, and edits the buffer to
`markLines`: the `taskIndex`-th line matching the marker pattern
`^\s*-\s*\[[x ]\]` (which coincides with the parser's index assignment only
when every marker line carries description text) is replaced by
`replaceTaskMarker` of itself — the matched prefix is normalised to the
literal `- [x]` while the remainder of the line after the brackets is kept
verbatim — and every other line is unchanged; if no such line exists the
buffer is unchanged.  For a line already in canonical form
`- [ ] <text>` with no leading whitespace, only the bracket character
changes. -/
theorem C3_amended_marker_rewrite (env : Env) (s : SysState) (st : TaskState)
    (bl : List (List Char)) (d : List Char)
    (hst : s.currentTaskState = some st)
    (hd : env.disk st.feature = some d)
    (hbl : env.buffer st.feature = some bl) :
    (completeTaskImplementation env s).2.currentTaskState = none
    ∧ (completeTaskImplementation env s).1.buffer st.feature
        = some (markLines bl st.taskIndex)
    ∧ (∀ j l, (markerLinesFrom 0 bl).get? st.taskIndex = some (j, l) →
        markLines bl st.taskIndex = bl.set j (replaceTaskMarker l)
        ∧ ∀ i, i ≠ j → (markLines bl st.taskIndex).get? i = bl.get? i)
    ∧ ((markerLinesFrom 0 bl).get? st.taskIndex = none →
        markLines bl st.taskIndex = bl)
    ∧ (∀ rest, replaceTaskMarker ('-' :: ' ' :: '[' :: ' ' :: ']' :: rest)
        = '-' :: ' ' :: '[' :: 'x' :: ']' :: rest) := by
  have hpair : completeTaskImplementation env s
      = (markTaskCompleted env st.feature st.taskIndex,
         updateTaskProgress (markTaskCompleted env st.feature st.taskIndex)
           st.feature { s with currentTaskState := none }) := by
    unfold completeTaskImplementation
    rw [hst]
  have hbuf : (markTaskCompleted env st.feature st.taskIndex).buffer st.feature
      = some (markLines bl st.taskIndex) := by
    unfold markTaskCompleted
    rw [hd, hbl]
    simp
  refine ⟨?_, ?_, ?_, ?_, ?_⟩
  · rw [hpair]
    exact updateTaskProgress_currentTaskState_none rfl
  · rw [hpair]
    exact hbuf
  · intro j l hj
    constructor
    · rw [markLines_eq, hj]
      rfl
    · intro i hi
      rw [markLines_eq, hj]
      exact List.get?_set_ne _ _ (fun hji => hi hji.symm)
  · intro hj
    rw [markLines_eq, hj]
    rfl
  · intro rest
    rfl

/-- Witness for C3 amended: completing task 1 on the open buffer
`["- [ ] alpha", "- [ ] beta"]` marks only the second line. -/
theorem C3_amended_marker_rewrite_witness :
    (completeTaskImplementation envTwo sActiveF1).2.currentTaskState = none
    ∧ (completeTaskImplementation envTwo sActiveF1).1.buffer "f"
        = some ["- [ ] alpha".toList, "- [x] beta".toList] := by
  have h := C3_amended_marker_rewrite envTwo sActiveF1 stF1 bufTwo
    ("- [ ] alpha\n- [ ] beta".toList) rfl rfl rfl
  have h21 : (completeTaskImplementation envTwo sActiveF1).1.buffer "f"
      = some (markLines bufTwo 1) := h.2.1
  refine ⟨h.1, ?_⟩
  rw [h21]
  decide

/-- C4 counterexample: a start-task request with no located tasks document
DOES create an `ActiveTaskState` (the safety check is skipped and the state
is assigned unconditionally), so the claim that start-task is a no-op on the
in-memory state is false. -/
theorem C4_start_creates_state_without_doc :
    (startTaskImplementation envMissing "f" 0 sIdle).currentTaskState
      ≠ sIdle.currentTaskState := by
  decide

/-- C4 amended: when the feature's tasks document cannot be located, the
reconcile operation is a no-op on the whole system state and no blocking
failure is surfaced (the model is total); but start-task still sets
`ActiveTaskState` to `Implementing(f, i)` — skipping the completed-task
check and leaving the snapshot unchanged — and complete-task still clears
`ActiveTaskState` to null, leaving the environment untouched. -/
theorem C4_amended_missing_doc_behaviour (env : Env) (f : String) (i : Nat)
    (s : SysState) (h : env.disk f = none) :
    updateTaskProgress env f s = s
    ∧ startTaskImplementation env f i s
        = { s with currentTaskState := some ⟨f, i, .implementing⟩ }
    ∧ (∀ st, s.currentTaskState = some st → env.disk st.feature = none →
        (completeTaskImplementation env s).2 = { s with currentTaskState := none }
        ∧ (completeTaskImplementation env s).1 = env) := by
  refine ⟨updateTaskProgress_of_no_doc s h, ?_, ?_⟩
  · have h2 : startTaskImplementation env f i s
        = updateTaskProgress env f
            { s with currentTaskState := some ⟨f, i, .implementing⟩ } := by
      unfold startTaskImplementation
      simp [h]
    rw [h2, updateTaskProgress_of_no_doc _ h]
  · intro st hst hst2
    have hpair : completeTaskImplementation env s
        = (markTaskCompleted env st.feature st.taskIndex,
           updateTaskProgress (markTaskCompleted env st.feature st.taskIndex)
             st.feature { s with currentTaskState := none }) := by
      unfold completeTaskImplementation
      rw [hst]
    have henv : markTaskCompleted env st.feature st.taskIndex = env :=
      markTaskCompleted_of_no_doc _ hst2
    rw [hpair, henv]
    exact ⟨updateTaskProgress_of_no_doc _ hst2, rfl⟩

/-- Witness for C4 amended: concrete missing-document workspace. -/
theorem C4_amended_missing_doc_behaviour_witness :
    updateTaskProgress envMissing "f" sActiveF0 = sActiveF0
    ∧ (completeTaskImplementation envMissing sActiveF0).2
        = { sActiveF0 with currentTaskState := none } := by
  have h := C4_amended_missing_doc_behaviour envMissing "f" 0 sActiveF0 rfl
  exact ⟨h.1, (h.2.2 stF0 rfl rfl).1⟩

/-- C6 counterexample: reconciling feature `g` (whose only task is completed)
while the active state refers to feature `f` clears the active state — the
auto-clear check never compares the active state's feature with the feature
being reconciled, so the claim that reconciliation never clears based on a
different feature's task list is false. -/
theorem C6_cleared_by_other_feature :
    (updateTaskProgress envG "g" sActiveF0).currentTaskState = none
    ∧ sActiveF0.currentTaskState = some stF0
    ∧ stF0.feature ≠ "g" := by
  decide

/-- C6 amended: for every reconciliation call with an active state
`Implementing(_, i)`: if the parsed item at index `i` of the **reconciled
feature's** task list is completed, the active state is cleared to null
(without any document write — the operation's type carries no environment
output); if that item is incomplete or the index is out of range, the active
state is unchanged.  The active state's own feature plays no role. -/
theorem C6_amended_reconciliation (env : Env) (f : String) (s : SysState)
    (st : TaskState) (content : List Char)
    (hd : env.disk f = some content)
    (hst : s.currentTaskState = some st) :
    (∀ item, (parseTasks content).get? st.taskIndex = some item →
        item.completed = true →
        (updateTaskProgress env f s).currentTaskState = none)
    ∧ ((∀ item, (parseTasks content).get? st.taskIndex = some item →
          item.completed = false) →
        (updateTaskProgress env f s).currentTaskState = some st) := by
  constructor
  · intro item hi hc
    unfold updateTaskProgress
    rw [List.get?_eq_getElem?] at hi
    simp [hd, hst, hi, hc]
  · intro hall
    unfold updateTaskProgress
    cases hi : (parseTasks content).get? st.taskIndex with
    | none =>
      rw [List.get?_eq_getElem?] at hi
      simp [hd, hst, hi]
    | some item =>
      have hc := hall item hi
      rw [List.get?_eq_getElem?] at hi
      simp [hd, hst, hi, hc]

/-- Witness for C6 amended: reconciling `f` while its single task is still
incomplete leaves `Implementing("f", 0)` in place. -/
theorem C6_amended_reconciliation_witness :
    (updateTaskProgress envF "f" sActiveF0).currentTaskState = some stF0 := by
  have h := C6_amended_reconciliation envF "f" sActiveF0 stF0 docOneIncomplete
    rfl rfl
  apply h.2
  intro item hi
  have hi0 : (parseTasks docOneIncomplete).get? 0 = some item := hi
  have hx : (parseTasks docOneIncomplete).get? 0
      = some ⟨0, "alpha".toList, false, 0⟩ := by decide
  rw [hx] at hi0
  injection hi0 with hi0
  rw [← hi0]

end Vscodep

namespace Vscodep

/-- C8 counterexample: with active state `Implementing("f", 0)` on a 1-task
incomplete list, the snapshot's `currentTask` is `none` (the `|| null`
coercion of index 0) while the presenter shows the active indicator — so
`isActive` is NOT `(currentTaskIndex != null) && (completedTasks <
totalTasks)`, which would be false here: the code tests the live
`currentTaskState` instead of the snapshot field. -/
theorem C8_isActive_disagrees_with_snapshot :
    (present (updateTaskProgress envF "f" sActiveF0).taskProgress
        (updateTaskProgress envF "f" sActiveF0).currentTaskState).isActive = true
    ∧ (updateTaskProgress envF "f" sActiveF0).taskProgress.currentTask = none
    ∧ (updateTaskProgress envF "f" sActiveF0).taskProgress.completedTasks
        < (updateTaskProgress envF "f" sActiveF0).taskProgress.totalTasks := by
  decide

/-- C8 amended: if `totalTasks = 0` the presenter yields the ready/no-tasks
summary with `isActive = false`; otherwise `isActive = (the live
ActiveTaskState is non-null) && (completedTasks < totalTasks)` — which
matches the claim's `(currentTaskIndex != null) && ...` except when the
active index is 0 — and the summary text contains `completedTasks`,
`totalTasks` and the percentage `round(100 * completedTasks / totalTasks)`
with round-half-up integer rounding (equal, in closed form, to
`(200c + t) / 2t` in natural division). -/
theorem C8_amended_presenter (p : TaskProgress) (st : Option TaskState) :
    (p.totalTasks = 0 →
      present p st
        = ⟨"$(checklist) Code:P Ready", "Code:P Extension Status", false⟩)
    ∧ (0 < p.totalTasks →
        (present p st).isActive
            = (st.isSome && decide (p.completedTasks < p.totalTasks))
        ∧ progressPercent p
            = jsRound ((100 * p.completedTasks : ℚ) / (p.totalTasks : ℚ))
        ∧ progressPercent p
            = ((200 * p.completedTasks + p.totalTasks) / (2 * p.totalTasks) : ℕ)
        ∧ (present p st).text
            = "$(checklist) " ++ toString p.completedTasks ++ "/"
                ++ toString p.totalTasks ++ " ("
                ++ toString (progressPercent p) ++ "%)"
                ++ (if st.isSome && decide (p.completedTasks < p.totalTasks)
                    then " $(sync~spin)" else "")) := by
  constructor
  · intro h0
    unfold present
    rw [if_pos h0]
  · intro hpos
    have hne : ¬ p.totalTasks = 0 := hpos.ne'
    refine ⟨?_, progressPercent_comm p, progressPercent_eq_natDiv p hpos, ?_⟩
    · unfold present
      rw [if_neg hne]
    · unfold present
      rw [if_neg hne]

/-- Witness for C8 amended: the spec's §8 scenario snapshot (3 tasks, 1
completed, no active task) presents 33% and an inactive indicator. -/
theorem C8_amended_presenter_witness :
    (present ⟨3, 1, none⟩ none).isActive = false
    ∧ progressPercent ⟨3, 1, none⟩ = 33 := by
  have h := (C8_amended_presenter ⟨3, 1, none⟩ none).2 (by decide)
  constructor
  · rw [h.1]
    decide
  · rw [h.2.2.1]
    decide

/-- C9 counterexample: starting task 5 of a 1-task feature creates
`ActiveTaskState = Implementing("f", 5)` even though no parsed item with
index 5 exists — `tasks[taskIndex] && tasks[taskIndex].completed` is falsy
for an out-of-range index, so the request is not refused, refuting the claim
that out-of-range start requests create no state. -/
theorem C9_out_of_range_start_creates_state :
    (startTaskImplementation envF "f" 5 sIdle).currentTaskState
      = some ⟨"f", 5, .implementing⟩
    ∧ (parseTasks docOneIncomplete).get? 5 = none := by
  decide

/-- C9 amended: a start-task request that changes the active state and whose
index is in range references a not-yet-completed item; however an
out-of-range index still creates `Implementing(f, i)`; and every progress
recomputation either produces a snapshot with
`completedTasks ≤ totalTasks` or leaves the snapshot unchanged. -/
theorem C9_amended_start_invariants :
    (∀ env f i s content item, env.disk f = some content →
        (parseTasks content).get? i = some item →
        (startTaskImplementation env f i s).currentTaskState
          ≠ s.currentTaskState →
        item.completed = false)
    ∧ (∀ env f i s content, env.disk f = some content →
        (parseTasks content).get? i = none →
        (startTaskImplementation env f i s).currentTaskState
          = some ⟨f, i, .implementing⟩)
    ∧ (∀ env f s, (updateTaskProgress env f s).taskProgress.completedTasks
          ≤ (updateTaskProgress env f s).taskProgress.totalTasks
        ∨ (updateTaskProgress env f s).taskProgress = s.taskProgress) := by
  refine ⟨?_, ?_, ?_⟩
  · intro env f i s content item hd hi hne
    cases hcc : item.completed with
    | false => rfl
    | true =>
      have hrefused : startTaskImplementation env f i s = s := by
        unfold startTaskImplementation
        rw [List.get?_eq_getElem?] at hi
        simp [hd, hi, hcc]
      exact absurd (by rw [hrefused]) hne
  · intro env f i s content hd hi
    rw [List.get?_eq_getElem?] at hi
    have h2 : startTaskImplementation env f i s
        = updateTaskProgress env f
            { s with currentTaskState := some ⟨f, i, .implementing⟩ } := by
      unfold startTaskImplementation
      simp [hd, hi]
    rw [h2]
    unfold updateTaskProgress
    simp [hd, hi]
  · intro env f s
    cases hd : env.disk f with
    | none =>
      right
      rw [updateTaskProgress_of_no_doc s hd]
    | some content =>
      left
      have h2 : (updateTaskProgress env f s).taskProgress.totalTasks
          = (parseTasks content).length := by
        unfold updateTaskProgress
        simp [hd]
      have h3 : (updateTaskProgress env f s).taskProgress.completedTasks
          = ((parseTasks content).filter (fun t => t.completed)).length := by
        unfold updateTaskProgress
        simp [hd]
      rw [h2, h3]
      exact List.length_filter_le _ _

/-- Witness for C9 amended: starting in-range task 0 of `f` changes the
state, and its item is incomplete; starting out-of-range task 3 still
creates `Implementing("f", 3)`. -/
theorem C9_amended_start_invariants_witness :
    (⟨0, "alpha".toList, false, 0⟩ : TaskItem).completed = false
    ∧ (startTaskImplementation envF "f" 3 sIdle).currentTaskState
        = some ⟨"f", 3, .implementing⟩ := by
  have h := C9_amended_start_invariants
  exact ⟨h.1 envF "f" 0 sIdle docOneIncomplete ⟨0, "alpha".toList, false, 0⟩
      (by decide) (by decide) (by decide),
    h.2.1 envF "f" 3 sIdle docOneIncomplete (by decide) (by decide)⟩

end Vscodep
